import Mathlib

/-!
Verification of the resumable multi-signer batch minting engine of
`punks-data`, shallowly embedded from the source scripts:
  * `src/unnamed/part_006` (the multi-signer optimized script) — signer pool
    with backoff, fresh-nonce fetching, per-token retry recursion, pending-ID
    computation, per-batch progress snapshot;
  * `src/blockticity-l1-minting/placeholder-pia-test/mint_batch_200k_300k.js`
    — local nonce cursor (`getNextNonce` / `resetNonceSequence`);
  * `src/blockticity-l1-minting/placeholder-pia-test/retry_failed_batch2_optimized.js`
    — the completed-record guard in `mintSingleTokenOptimized`.
-/

namespace PunksData

/-- One entry of `mintLog.tokens` (a token's status record) as written by the
scripts.  Timestamp fields (`startedAt`, `completedAt`, `failedAt`), the
constant `metadataUri`, the raw `error` message and the `nonce`/address
diagnostics are omitted; every field a claim talks about is kept.  The
`status` field holds the literal strings `"pending"`, `"completed"`,
`"failed"` used by the JavaScript. -/
structure TokenRec where
  status : String
  attempts : Nat
  txHash : Option String
  blockNumber : Option Nat
  gasUsed : Option Nat
  signerIndex : Option Nat
  lastSignerIndex : Option Nat
  errorType : Option String
  finalAttempt : Option Nat
deriving DecidableEq

/-- `CONFIG.RETRY_ATTEMPTS` of `src/unnamed/part_006` (same value in
`mint_batch_200k_300k.js` and `retry_failed_batch2_optimized.js`). -/
def RETRY_ATTEMPTS : Nat := 5

/-- `CONFIG.SIGNER_BACKOFF_THRESHOLD` of `src/unnamed/part_006`. -/
def SIGNER_BACKOFF_THRESHOLD : Nat := 3

/-- `CONFIG.SIGNER_BACKOFF_DURATION` (milliseconds) of `src/unnamed/part_006`. -/
def SIGNER_BACKOFF_DURATION : Nat := 30000

/-- `needle.isPrefixOf hay` on character lists (Boolean). -/
def isPrefixL : List Char → List Char → Bool
  | [], _ => true
  | _ :: _, [] => false
  | n :: ns, h :: hs => n == h && isPrefixL ns hs

/-- Substring test `subL needle hay`: JavaScript `hay.includes(needle)`. -/
def subL : List Char → List Char → Bool
  | [], _ => true
  | _ :: _, [] => false
  | n :: ns, h :: hs => isPrefixL (n :: ns) (h :: hs) || subL (n :: ns) hs

/-- `message.toLowerCase()` as a character list (ASCII case folding, which is
what the error messages matched by the scripts use). -/
def lowerStr (s : String) : List Char := s.data.map Char.toLower

/-- `message.includes(pat)` for an (already lowercase) pattern literal. -/
def includesL (message : List Char) (pat : String) : Bool := subL pat.data message

/-- Body of `classifyError` from `src/unnamed/part_006` lines 347-367, applied
to the lowercased message. -/
def classifyErrorL (message : List Char) : String :=
  if includesL message "already known" || includesL message "transaction already exists" then
    "ALREADY_KNOWN"
  else if includesL message "nonce" &&
      (includesL message "too low" || includesL message "already been used") then
    "NONCE_ERROR"
  else if includesL message "timeout" || includesL message "econnreset" ||
      includesL message "network" then
    "NETWORK_ERROR"
  else if includesL message "-32000" then
    "RPC_ERROR"
  else if includesL message "insufficient funds" then
    "INSUFFICIENT_FUNDS"
  else
    "UNKNOWN_ERROR"

/-- `classifyError` of `src/unnamed/part_006`: lowercases `error.message` and
matches the fixed pattern sequence. -/
def classifyError (errMsg : String) : String := classifyErrorL (lowerStr errMsg)

/-- `classifyError` of `mint_batch_200k_300k.js` (lines 58-75) and
`retry_failed_batch2_optimized.js`: same first three patterns, then
`replacement transaction underpriced`, default `UNKNOWN_ERROR`. -/
def classifyErrorMB (errMsg : String) : String :=
  let message := lowerStr errMsg
  if includesL message "already known" || includesL message "transaction already exists" then
    "ALREADY_KNOWN"
  else if includesL message "nonce" &&
      (includesL message "too low" || includesL message "already been used") then
    "NONCE_ERROR"
  else if includesL message "timeout" || includesL message "econnreset" ||
      includesL message "network" then
    "NETWORK_ERROR"
  else if includesL message "replacement transaction underpriced" then
    "REPLACEMENT_UNDERPRICED"
  else
    "UNKNOWN_ERROR"

/-- Result of one chain submission attempt as observed by
`mintSingleTokenOptimized`: either a mined receipt or a thrown error whose
`message` is classified. -/
inductive Outcome where
  | success (txHash : String) (blockNumber : Nat) (gasUsed : Nat)
  | failure (msg : String)
deriving DecidableEq

/-- One iteration of `mintSingleTokenOptimized` (`src/unnamed/part_006`
lines 412-521): either `getNextAvailableSigner()` returned `null`
(`noSigner`, the wait-and-recurse branch at lines 415-420), or a signer with
index `signerIdx` was obtained and the submission produced `outcome`. -/
inductive Step where
  | noSigner
  | attempt (signerIdx : Nat) (outcome : Outcome)
deriving DecidableEq

/-- Aggregate effect of a (partial) run of the per-token mint function:
`resolved` is `some true` / `some false` when the function returned
(success / terminal failure) and `none` when the supplied schedule ended
while the function would still recurse; `record` is the final
`mintLog.tokens[tokenId]` entry; `submissions` counts transaction submission
attempts; `succInc` / `failInc` count the `mintLog.summary.successful++` /
`mintLog.summary.failed++` updates performed. -/
structure RunResult where
  resolved : Option Bool
  record : Option TokenRec
  submissions : Nat
  succInc : Nat
  failInc : Nat
deriving DecidableEq

/-- The fresh record created at lines 423-430 of `src/unnamed/part_006`
(`status: 'pending', attempts: 0`). -/
def initTokenRec : TokenRec :=
  { status := "pending", attempts := 0, txHash := none, blockNumber := none,
    gasUsed := none, signerIndex := none, lastSignerIndex := none,
    errorType := none, finalAttempt := none }

/-- Lines 423-432 of `src/unnamed/part_006`: create the record if absent,
then `mintLog.tokens[tokenId].attempts++`. -/
def bumpAttempts : Option TokenRec → TokenRec
  | none => { initTokenRec with attempts := 1 }
  | some t => { t with attempts := t.attempts + 1 }

/-- `mintSingleTokenOptimized(tokenId, retryCount)` of `src/unnamed/part_006`
(lines 412-521), driven by a schedule of `Step`s (one per invocation).
Branches, in source order: no signer available → wait and recurse with the
same `retryCount`; submission success → record completed, return `true`;
error classified `ALREADY_KNOWN` → record completed with
`txHash = "already_known"`, return `true`; other error → store
`lastSignerIndex` (the record's previous value, defaulting to `0`), then
retry while `retryCount < RETRY_ATTEMPTS`, else record failed, return
`false`. -/
def processToken : List Step → Nat → Option TokenRec → RunResult
  | [], _, rec => ⟨none, rec, 0, 0, 0⟩
  | Step.noSigner :: rest, r, rec => processToken rest r rec
  | Step.attempt idx outc :: rest, r, rec =>
    let t := bumpAttempts rec
    match outc with
    | Outcome.success h bn gu =>
      ⟨some true,
        some { t with
          status := "completed"
          txHash := some h
          blockNumber := some bn
          gasUsed := some gu
          signerIndex := some idx },
        1, 1, 0⟩
    | Outcome.failure msg =>
      if classifyError msg = "ALREADY_KNOWN" then
        ⟨some true,
          some { t with status := "completed", txHash := some "already_known" },
          1, 1, 0⟩
      else
        let t2 := { t with
          lastSignerIndex := some (match t.lastSignerIndex with
            | some j => j
            | none => 0) }
        if r < RETRY_ATTEMPTS then
          let res := processToken rest (r + 1) (some t2)
          ⟨res.resolved, res.record, res.submissions + 1, res.succInc, res.failInc⟩
        else
          ⟨some false,
            some { t2 with
              status := "failed"
              errorType := some (classifyError msg)
              finalAttempt := some (r + 1) },
            1, 0, 1⟩

/-- The guard of `mintSingleTokenOptimized` in
`retry_failed_batch2_optimized.js` lines 117-120: a record already marked
completed. -/
def isCompletedRec : Option TokenRec → Bool
  | none => false
  | some t => t.status == "completed"

/-- `mintSingleTokenOptimized(contract, tokenId, retryCount)` of
`retry_failed_batch2_optimized.js` (lines 115-218), driven by a schedule of
submission outcomes.  Each invocation first checks the completed-record
guard (lines 117-120) and returns `true` with no chain interaction when it
holds; otherwise it submits and handles the outcome as in the other scripts
(this script rebuilds the record object wholesale, without an `attempts`
field, on completion/failure). -/
def processTokenRetry : List Outcome → Nat → Option TokenRec → RunResult
  | [], _, rec =>
    if isCompletedRec rec then ⟨some true, rec, 0, 0, 0⟩ else ⟨none, rec, 0, 0, 0⟩
  | outc :: rest, r, rec =>
    if isCompletedRec rec then ⟨some true, rec, 0, 0, 0⟩
    else
      match outc with
      | Outcome.success h bn gu =>
        ⟨some true,
          some { initTokenRec with
            status := "completed"
            txHash := some h
            blockNumber := some bn
            gasUsed := some gu },
          1, 1, 0⟩
      | Outcome.failure msg =>
        if classifyErrorMB msg = "ALREADY_KNOWN" then
          ⟨some true,
            some { initTokenRec with status := "completed", txHash := some "already_known" },
            1, 1, 0⟩
        else if r < RETRY_ATTEMPTS then
          let res := processTokenRetry rest (r + 1) rec
          ⟨res.resolved, res.record, res.submissions + 1, res.succInc, res.failInc⟩
        else
          ⟨some false,
            some { initTokenRec with
              status := "failed"
              errorType := some (classifyErrorMB msg)
              finalAttempt := some r },
            1, 0, 1⟩

/-- The pending filter of `main` in `src/unnamed/part_006` lines 593-596:
a token is queued when its record is absent or its status is `'pending'` or
`'failed'`. -/
def isPendingRec : Option TokenRec → Bool
  | none => true
  | some t => t.status == "pending" || t.status == "failed"

/-- The pending-ID computation of `main` in `src/unnamed/part_006`
lines 591-597: iterate `tokenId` ascending from `START_TOKEN_ID` to
`END_TOKEN_ID` inclusive, keeping absent / pending / failed records. -/
def pendingTokens (start fin : Nat) (recs : Nat → Option TokenRec) : List Nat :=
  (List.range' start (fin + 1 - start)).filter (fun id => isPendingRec (recs id))

/-- The per-run effect of `main` + `processBatchOptimized` on the token map
(`src/unnamed/part_006`): every pending token is processed once by
`mintSingleTokenOptimized` (which only writes its own key); all other
records are untouched. -/
def runScheduler (start fin : Nat) (recs : Nat → Option TokenRec)
    (plans : Nat → List Step) : Nat → Option TokenRec :=
  fun id =>
    if id ∈ pendingTokens start fin recs then (processToken (plans id) 0 (recs id)).record
    else recs id

/-- Total number of transaction submissions a run performs: the pending
tokens are exactly the ones handed to `mintSingleTokenOptimized`; `main`
returns before `initializeBlockchain()` when the pending list is empty. -/
def schedulerSubmissions (start fin : Nat) (recs : Nat → Option TokenRec)
    (plans : Nat → List Step) : Nat :=
  ((pendingTokens start fin recs).map
    (fun id => (processToken (plans id) 0 (recs id)).submissions)).sum

/-- Whether a run of `main` reaches `initializeBlockchain()` (it does not
when the pending list is empty: lines 601-605 return first). -/
def chainInitialized (start fin : Nat) (recs : Nat → Option TokenRec) : Bool :=
  !(pendingTokens start fin recs).isEmpty

/-- Per-signer health state (`signerStates[i]` of `src/unnamed/part_006`,
lines 192-210).  The reporting counters `totalMinted` / `totalFailed` and
the `mintLog.signerStats` mirror are omitted. -/
structure SignerState where
  consecutiveFailures : Nat
  isBackedOff : Bool
  backoffUntil : Nat
  lastUsed : Nat
deriving DecidableEq

/-- The reactivation scan of `getNextAvailableSigner` (lines 216-223):
a backed-off signer is reactivated when `now > backoffUntil` (strict),
resetting `consecutiveFailures` to 0. -/
def reactivateOne (now : Nat) (s : SignerState) : SignerState :=
  if s.isBackedOff && decide (s.backoffUntil < now) then
    { s with isBackedOff := false, consecutiveFailures := 0 }
  else s

/-- The reactivation scan applied to the whole pool. -/
def reactivateAll (now : Nat) (states : List SignerState) : List SignerState :=
  states.map (reactivateOne now)

/-- Indexed list of the signers whose `isBackedOff` flag is clear (the
`filter` of lines 228-229), indices counted from `start`. -/
def availAux (start : Nat) : List SignerState → List (Nat × SignerState)
  | [] => []
  | s :: rest =>
    (if s.isBackedOff then [] else [(start, s)]) ++ availAux (start + 1) rest

/-- The non-backed-off signers, paired with their pool indices. -/
def availableSigners (states : List SignerState) : List (Nat × SignerState) :=
  availAux 0 states

/-- The `sort` + take-first of lines 228-230: the available signer with the
least `lastUsed`, earliest index winning ties (the sort is stable over the
insertion-ordered keys). -/
def pickOldest : List (Nat × SignerState) → Option (Nat × SignerState)
  | [] => none
  | p :: rest =>
    match pickOldest rest with
    | none => some p
    | some q => if q.2.lastUsed < p.2.lastUsed then some q else some p

/-- `getNextAvailableSigner()` of `src/unnamed/part_006` lines 213-246:
reactivate expired backoffs, then return the least-recently-used available
signer (stamping its `lastUsed`), or `null` when every signer is backed
off.  (The `while attempts < signers.length` wrapper either returns on its
first iteration or never finds a signer, so it adds nothing.) -/
def getNextAvailableSigner (now : Nat) (states : List SignerState) :
    Option (Nat × List SignerState) :=
  let st1 := reactivateAll now states
  match pickOldest (availableSigners st1) with
  | none => none
  | some (i, s) => some (i, st1.set i { s with lastUsed := now })

/-- `handleSignerFailure` of `src/unnamed/part_006` lines 249-263:
increment `consecutiveFailures`; on reaching `SIGNER_BACKOFF_THRESHOLD`,
set `isBackedOff` and `backoffUntil = now + SIGNER_BACKOFF_DURATION`
(the counter is NOT cleared here — it is cleared on reactivation). -/
def handleSignerFailure (now : Nat) (s : SignerState) : SignerState :=
  let s1 := { s with consecutiveFailures := s.consecutiveFailures + 1 }
  if SIGNER_BACKOFF_THRESHOLD ≤ s1.consecutiveFailures then
    { s1 with isBackedOff := true, backoffUntil := now + SIGNER_BACKOFF_DURATION }
  else s1

/-- `handleSignerSuccess` of `src/unnamed/part_006` lines 266-270. -/
def handleSignerSuccess (s : SignerState) : SignerState :=
  { s with consecutiveFailures := 0 }

/-- Chain-level events relevant to `getFreshNonce`
(`src/unnamed/part_006` lines 273-282): `fetch w s` is worker `w` executing
`provider.getTransactionCount(signers[s].address, 'latest')`, and `mine s`
is one of signer `s`'s transactions being mined (which is the only thing
that advances the latest-confirmed transaction count). -/
inductive NEvent where
  | fetch (worker signer : Nat)
  | mine (signer : Nat)
deriving DecidableEq

/-- Runs a schedule of chain events against the per-signer confirmed
transaction counts, returning the `(signer, nonce)` pairs produced by the
`getFreshNonce` fetches, in schedule order. -/
def runNonceSched : List NEvent → (Nat → Nat) → List (Nat × Nat)
  | [], _ => []
  | NEvent.fetch _ s :: rest, chain => (s, chain s) :: runNonceSched rest chain
  | NEvent.mine s :: rest, chain =>
    runNonceSched rest (fun x => if x = s then chain x + 1 else chain x)

/-- The nonces fetched for signer `s` during a schedule — the `nonceUsed`
values the ledger would record for that signer, in order. -/
def noncesFor (sched : List NEvent) (chain : Nat → Nat) (s : Nat) : List Nat :=
  ((runNonceSched sched chain).filter (fun p => p.1 == s)).map Prod.snd

/-- `getNextNonce()` of `mint_batch_200k_300k.js` lines 78-82: return
`baseNonce + nonceOffset` and increment the offset. -/
def getNextNonce (baseNonce nonceOffset : Nat) : Nat × Nat :=
  (baseNonce + nonceOffset, nonceOffset + 1)

/-- The nonces produced by `k` consecutive `getNextNonce()` calls (no
intervening `resetNonceSequence()`), starting from cursor state
`(baseNonce, nonceOffset)`. -/
def runNextNonces : Nat → Nat → Nat → List Nat
  | 0, _, _ => []
  | k + 1, base, off => (getNextNonce base off).1 :: runNextNonces k base (off + 1)

/-- The fields of the `mintLog` object that `fs.writeJson` serializes:
the token map entries and the derived summary counters. -/
structure MintLogM where
  tokensEntries : List (Nat × TokenRec)
  successful : Nat
  failed : Nat
  pending : Nat
deriving DecidableEq

/-- Comma-join of serialized fragments. -/
def joinComma : List (List Char) → List Char
  | [] => []
  | [x] => x
  | x :: y :: rest => x ++ ',' :: joinComma (y :: rest)

/-- JSON text of one token record (the claim-relevant fields). -/
def serializeRec (t : TokenRec) : List Char :=
  '\x7b' :: ("\"status\":\"".data ++ t.status.data ++ "\",\"attempts\":".data ++
    (Nat.repr t.attempts).data) ++ ['\x7d']

/-- JSON text of one `tokenId: record` entry of `mintLog.tokens`. -/
def serializeEntry (p : Nat × TokenRec) : List Char :=
  '"' :: (Nat.repr p.1).data ++ "\":".data ++ serializeRec p.2

/-- Everything of the serialized `mintLog` between the outer braces. -/
def serializeBody (log : MintLogM) : List Char :=
  "\"tokens\":".data ++
    ('\x7b' :: (joinComma (log.tokensEntries.map serializeEntry) ++ ['\x7d'])) ++
  ",\"summary\":\x7b\"successful\":".data ++ (Nat.repr log.successful).data ++
  ",\"failed\":".data ++ (Nat.repr log.failed).data ++
  ",\"pending\":".data ++ (Nat.repr log.pending).data ++ "\x7d".data

/-- The byte stream `fs.writeJson(CONFIG.MINT_LOG_PATH, mintLog, ...)`
writes (`JSON.stringify` of the log object): the progress-snapshot call of
`processBatchOptimized`, `src/unnamed/part_006` lines 548-549 (same call in
`processBatch` of `mint_batch_200k_300k.js` lines 294-295). -/
def serializeLog (log : MintLogM) : List Char :=
  '\x7b' :: (serializeBody log ++ ['\x7d'])

/-- Durable-store content after the snapshot call.  The scripts write
directly to the final path (`CONFIG.MINT_LOG_PATH`) — there is no temporary
file and no rename — so an interruption after `k` characters leaves exactly
the first `k` characters of the new serialization (`crash = some k`);
`crash = none` is an uninterrupted write. -/
def writeJsonCrash (log : MintLogM) : Option Nat → List Char
  | none => serializeLog log
  | some k => (serializeLog log).take k

/-- Minimal well-formedness a JSON object file must satisfy to parse:
nonempty, starting with an opening brace and ending with the matching
closing brace. -/
def wellFormedJson : List Char → Bool
  | [] => false
  | c :: rest => c == '\x7b' && rest.getLast? == some '\x7d'

/-- A record with status `"completed"` (used to instantiate theorems). -/
def compRec : TokenRec := { initTokenRec with status := "completed" }

/-- A ledger in which every token is completed. -/
def allCompleted : Nat → Option TokenRec := fun _ => some compRec

/-- A ledger with a single completed record at token 4. -/
def recsMix : Nat → Option TokenRec :=
  fun id => if id = 4 then some compRec else none

/-- The empty plan assignment (no submission activity scheduled). -/
def noPlans : Nat → List Step := fun _ => []

/-- The constant chain state: every signer has 7 confirmed transactions. -/
def constChain7 : Nat → Nat := fun _ => 7

/-- Termination of the retry recursion regardless of signer availability:
for every infinite schedule of per-invocation inputs, some finite prefix
makes `mintSingleTokenOptimized` return.  (`(List.range n).map f` is the
`n`-step prefix of the schedule `f`.) -/
def retryAlwaysTerminates : Prop :=
  ∀ f : Nat → Step, ∃ n : Nat,
    (processToken ((List.range n).map f) 0 none).resolved.isSome = true

/-! Theorems. -/

/-- C10: `classifyError` is a total, deterministic function of the
lowercased error message, evaluated in the source's fixed precedence order:
any message containing `already known` or `transaction already exists` is
`ALREADY_KNOWN` (whatever else it contains); `NONCE_ERROR` requires `nonce`
together with `too low` or `already been used`; a message matching no
pattern is `UNKNOWN_ERROR`. -/
theorem classifyError_spec :
    (∀ m₁ m₂ : String, lowerStr m₁ = lowerStr m₂ → classifyError m₁ = classifyError m₂) ∧
    (∀ m : String,
      includesL (lowerStr m) "already known" = true ∨
        includesL (lowerStr m) "transaction already exists" = true →
      classifyError m = "ALREADY_KNOWN") ∧
    (∀ m : String, classifyError m = "NONCE_ERROR" →
      includesL (lowerStr m) "nonce" = true ∧
        (includesL (lowerStr m) "too low" = true ∨
          includesL (lowerStr m) "already been used" = true)) ∧
    (∀ m : String,
      includesL (lowerStr m) "already known" = false →
      includesL (lowerStr m) "transaction already exists" = false →
      includesL (lowerStr m) "nonce" = false →
      includesL (lowerStr m) "timeout" = false →
      includesL (lowerStr m) "econnreset" = false →
      includesL (lowerStr m) "network" = false →
      includesL (lowerStr m) "-32000" = false →
      includesL (lowerStr m) "insufficient funds" = false →
      classifyError m = "UNKNOWN_ERROR") := by
  refine ⟨?_, ?_, ?_, ?_⟩
  · intro m₁ m₂ h
    unfold classifyError
    rw [h]
  · intro m h
    unfold classifyError classifyErrorL
    rcases h with h | h <;> simp [h]
  · intro m h
    unfold classifyError classifyErrorL at h
    by_cases h1 : (includesL (lowerStr m) "already known" ||
        includesL (lowerStr m) "transaction already exists") = true
    · rw [if_pos h1] at h
      exact absurd h (by decide)
    · rw [if_neg h1] at h
      by_cases h2 : (includesL (lowerStr m) "nonce" &&
          (includesL (lowerStr m) "too low" ||
            includesL (lowerStr m) "already been used")) = true
      · simpa using h2
      · rw [if_neg h2] at h
        by_cases h3 : (includesL (lowerStr m) "timeout" ||
            includesL (lowerStr m) "econnreset" || includesL (lowerStr m) "network") = true
        · rw [if_pos h3] at h
          exact absurd h (by decide)
        · rw [if_neg h3] at h
          by_cases h4 : includesL (lowerStr m) "-32000" = true
          · rw [if_pos h4] at h
            exact absurd h (by decide)
          · rw [if_neg h4] at h
            by_cases h5 : includesL (lowerStr m) "insufficient funds" = true
            · rw [if_pos h5] at h
              exact absurd h (by decide)
            · rw [if_neg h5] at h
              exact absurd h (by decide)
  · intro m h1 h2 h3 h4 h5 h6 h7 h8
    unfold classifyError classifyErrorL
    simp [h1, h2, h3, h4, h5, h6, h7, h8]

/-- C10 witness: a message containing both nonce keywords and an
already-known marker is classified `ALREADY_KNOWN`, and an unmatched
message is `UNKNOWN_ERROR`. -/
theorem classifyError_spec_witness :
    classifyError "Nonce too low: transaction already exists" = "ALREADY_KNOWN" :=
  classifyError_spec.2.1 "Nonce too low: transaction already exists" (Or.inr (by decide))

/-- C7: a first-attempt submission whose error classifies as
`ALREADY_KNOWN` transitions the record directly to `completed` with
`txHash = "already_known"` and `attempts = 1`, is counted successful
(`summary.successful++`), and performs no further submission attempts
whatever schedule follows. -/
theorem already_known_short_circuit (idx : Nat) (msg : String) (rest : List Step)
    (h : classifyError msg = "ALREADY_KNOWN") :
    processToken (Step.attempt idx (Outcome.failure msg) :: rest) 0 none =
      ⟨some true,
        some { initTokenRec with
          attempts := 1
          status := "completed"
          txHash := some "already_known" },
        1, 1, 0⟩ := by
  simp [processToken, bumpAttempts, h]

/-- C7 witness: the literal message `already known` on a fresh record. -/
theorem already_known_short_circuit_witness :
    processToken [Step.attempt 0 (Outcome.failure "already known")] 0 none =
      ⟨some true,
        some { initTokenRec with
          attempts := 1
          status := "completed"
          txHash := some "already_known" },
        1, 1, 0⟩ :=
  already_known_short_circuit 0 "already known" [] (by decide)

/-- C8 counterexample: a submission failing with `insufficient funds` IS
retried (a second submission attempt is performed), and a single such
failure does not back the signer off (`handleSignerFailure` only increments
the counter below the threshold) — the engine has no special handling for
`INSUFFICIENT_FUNDS` beyond classification. -/
theorem insufficient_funds_counterexample :
    (processToken [Step.attempt 0 (Outcome.failure "insufficient funds"),
        Step.attempt 0 (Outcome.failure "insufficient funds")] 0 none).submissions = 2 ∧
    classifyError "insufficient funds" = "INSUFFICIENT_FUNDS" ∧
    (handleSignerFailure 1000 ⟨0, false, 0, 0⟩).isBackedOff = false := by
  decide

/-- A run of `mintSingleTokenOptimized` in which every attempt fails with a
fixed non-`ALREADY_KNOWN` message resolves to `false` after exactly
`RETRY_ATTEMPTS + 1 - r` submissions, recording the classified error kind. -/
theorem processToken_allFail (msg : String) (hak : classifyError msg ≠ "ALREADY_KNOWN") :
    ∀ (n r : Nat) (rec : Option TokenRec), r + n = RETRY_ATTEMPTS + 1 →
      r ≤ RETRY_ATTEMPTS →
      (processToken (List.replicate n (Step.attempt 0 (Outcome.failure msg))) r rec).resolved
          = some false ∧
      (processToken (List.replicate n (Step.attempt 0 (Outcome.failure msg))) r rec).submissions
          = n ∧
      ∃ t : TokenRec,
        (processToken (List.replicate n (Step.attempt 0 (Outcome.failure msg))) r rec).record
            = some t ∧
        t.status = "failed" ∧ t.errorType = some (classifyError msg) ∧
        t.finalAttempt = some (RETRY_ATTEMPTS + 1) := by
  intro n
  induction n with
  | zero => intro r rec h hr; omega
  | succ m ih =>
    intro r rec h hr
    rw [List.replicate_succ]
    by_cases hm : m = 0
    · subst hm
      have hrr : r = RETRY_ATTEMPTS := by omega
      subst hrr
      simp [processToken, hak]
    · have hlt : r < RETRY_ATTEMPTS := by omega
      have := ih (r + 1)
        (some { bumpAttempts rec with
          lastSignerIndex := some (match (bumpAttempts rec).lastSignerIndex with
            | some j => j
            | none => 0) })
        (by omega) (by omega)
      simp only [processToken, hak, if_false, hlt, if_true, if_neg hak, if_pos hlt]
      refine ⟨this.1, by rw [this.2.1], this.2.2⟩

/-- C8 corrected: the engine classifies `insufficient funds` but handles
it like every other non-`ALREADY_KNOWN` failure — the submission is retried
up to the attempt cap (a full run of such failures performs exactly
`RETRY_ATTEMPTS + 1` submissions before recording `failed`), and the signer
enters backoff only through the generic consecutive-failure threshold
(`consecutiveFailures + 1 ≥ SIGNER_BACKOFF_THRESHOLD`), never immediately. -/
theorem insufficient_funds_amended :
    (∀ (msg : String) (rec : Option TokenRec), classifyError msg = "INSUFFICIENT_FUNDS" →
      (processToken (List.replicate (RETRY_ATTEMPTS + 1)
          (Step.attempt 0 (Outcome.failure msg))) 0 rec).resolved = some false ∧
      (processToken (List.replicate (RETRY_ATTEMPTS + 1)
          (Step.attempt 0 (Outcome.failure msg))) 0 rec).submissions = RETRY_ATTEMPTS + 1 ∧
      ∃ t : TokenRec,
        (processToken (List.replicate (RETRY_ATTEMPTS + 1)
            (Step.attempt 0 (Outcome.failure msg))) 0 rec).record = some t ∧
        t.status = "failed" ∧ t.errorType = some "INSUFFICIENT_FUNDS") ∧
    (∀ (now : Nat) (s : SignerState),
      (handleSignerFailure now s).consecutiveFailures = s.consecutiveFailures + 1 ∧
      (handleSignerFailure now s).isBackedOff =
        (s.isBackedOff || decide (SIGNER_BACKOFF_THRESHOLD ≤ s.consecutiveFailures + 1)) ∧
      (SIGNER_BACKOFF_THRESHOLD ≤ s.consecutiveFailures + 1 →
        (handleSignerFailure now s).backoffUntil = now + SIGNER_BACKOFF_DURATION)) := by
  constructor
  · intro msg rec h
    have hak : classifyError msg ≠ "ALREADY_KNOWN" := by rw [h]; decide
    obtain ⟨h1, h2, t, h3, h4, h5, h6⟩ :=
      processToken_allFail msg hak (RETRY_ATTEMPTS + 1) 0 rec (by omega) (by omega)
    exact ⟨h1, h2, t, h3, h4, by rw [h5, h]⟩
  · intro now s
    unfold handleSignerFailure
    by_cases hth : SIGNER_BACKOFF_THRESHOLD ≤ s.consecutiveFailures + 1
    · simp [hth]
    · simp [hth]

/-- C8 witness: six `insufficient funds` failures on a fresh record make
exactly six submissions, and one failure on a healthy signer leaves it
selectable. -/
theorem insufficient_funds_amended_witness :
    (processToken (List.replicate (RETRY_ATTEMPTS + 1)
        (Step.attempt 0 (Outcome.failure "insufficient funds"))) 0 none).submissions
      = RETRY_ATTEMPTS + 1 ∧
    (handleSignerFailure 1000 ⟨0, false, 0, 0⟩).isBackedOff =
      (false || decide (SIGNER_BACKOFF_THRESHOLD ≤ 0 + 1)) :=
  ⟨(insufficient_funds_amended.1 "insufficient funds" none (by decide)).2.1,
    (insufficient_funds_amended.2 1000 ⟨0, false, 0, 0⟩).2.1⟩

/-- When no signer is ever available, every invocation takes the
wait-and-recurse branch: nothing is resolved, recorded or submitted,
however many invocations are scheduled. -/
theorem processToken_noSigner (n : Nat) :
    ∀ (r : Nat) (rec : Option TokenRec),
      processToken (List.replicate n Step.noSigner) r rec = ⟨none, rec, 0, 0, 0⟩ := by
  induction n with
  | zero => intro r rec; rfl
  | succ m ih =>
    intro r rec
    rw [List.replicate_succ]
    exact ih r rec

/-- C9 counterexample: the retry recursion does NOT terminate regardless of
signer availability — under the schedule in which `getNextAvailableSigner`
always returns `null`, the function recurses forever with `retryCount`
stuck at 0 (the no-signer branch does not increment it), so no finite
prefix of the run returns. -/
theorem retry_termination_counterexample : ¬ retryAlwaysTerminates := by
  intro hcl
  obtain ⟨n, hn⟩ := hcl (fun _ => Step.noSigner)
  have hmap : (List.range n).map (fun _ => Step.noSigner)
      = List.replicate n Step.noSigner := by
    simp [List.map_const']
  rw [hmap, processToken_noSigner n 0 none] at hn
  exact absurd hn (by decide)

/-- Submission-count invariant of the retry recursion: a run entered with
retry counter `r` performs at most `max (RETRY_ATTEMPTS + 1 - r) 1`
submissions. -/
theorem processToken_subs_le (steps : List Step) :
    ∀ (r : Nat) (rec : Option TokenRec),
      (processToken steps r rec).submissions ≤ max (RETRY_ATTEMPTS + 1 - r) 1 := by
  induction steps with
  | nil => intro r rec; simp [processToken]
  | cons st rest ih =>
    intro r rec
    cases st with
    | noSigner => exact ih r rec
    | attempt idx outc =>
      cases outc with
      | success h bn gu => simp [processToken]
      | failure msg =>
        by_cases hak : classifyError msg = "ALREADY_KNOWN"
        · simp [processToken, hak]
        · by_cases hlt : r < RETRY_ATTEMPTS
          · simp only [processToken, if_neg hak, if_pos hlt]
            have hmax : max (RETRY_ATTEMPTS + 1 - (r + 1)) 1 + 1
                ≤ max (RETRY_ATTEMPTS + 1 - r) 1 := by omega
            exact le_trans (Nat.add_le_add_right (ih (r + 1) _) 1) hmax
          · simp only [processToken, if_neg hak, if_neg hlt]
            omega

/-- When a signer is available at every scheduled invocation, the recursion
returns within `RETRY_ATTEMPTS + 1 - r` invocations. -/
theorem processToken_resolves (steps : List Step) :
    ∀ (r : Nat) (rec : Option TokenRec),
      (∀ st ∈ steps, st ≠ Step.noSigner) →
      RETRY_ATTEMPTS + 1 ≤ steps.length + r → r ≤ RETRY_ATTEMPTS →
      (processToken steps r rec).resolved.isSome = true := by
  induction steps with
  | nil => intro r rec hns hlen hr; simp at hlen; omega
  | cons st rest ih =>
    intro r rec hns hlen hr
    cases st with
    | noSigner => exact absurd rfl (hns Step.noSigner (by simp))
    | attempt idx outc =>
      cases outc with
      | success h bn gu => simp [processToken]
      | failure msg =>
        by_cases hak : classifyError msg = "ALREADY_KNOWN"
        · simp [processToken, hak]
        · by_cases hlt : r < RETRY_ATTEMPTS
          · simp only [processToken, if_neg hak, if_pos hlt]
            refine ih (r + 1) _ (fun s hs => hns s (by simp [hs])) ?_ (by omega)
            simp at hlen ⊢
            omega
          · simp [processToken, hak, hlt]

/-- C9 corrected: the number of submission attempts per token is bounded by
`RETRY_ATTEMPTS + 1` for every schedule of outcomes and availability, and
the recursion terminates (within `RETRY_ATTEMPTS + 1` invocations) whenever
a signer is available at each invocation — but NOT regardless of signer
availability: the no-signer branch recurses without bound (see the
counterexample), performing no submissions. -/
theorem retry_bound_amended :
    (∀ (steps : List Step) (r : Nat) (rec : Option TokenRec),
      (processToken steps r rec).submissions ≤ RETRY_ATTEMPTS + 1) ∧
    (∀ (steps : List Step) (rec : Option TokenRec),
      (∀ st ∈ steps, st ≠ Step.noSigner) → RETRY_ATTEMPTS + 1 ≤ steps.length →
      (processToken steps 0 rec).resolved.isSome = true) := by
  constructor
  · intro steps r rec
    have := processToken_subs_le steps r rec
    omega
  · intro steps rec hns hlen
    exact processToken_resolves steps 0 rec hns (by omega) (by omega)

/-- C9 witness: six all-success invocations stay within the submission cap
and resolve. -/
theorem retry_bound_amended_witness :
    (processToken (List.replicate 6 (Step.attempt 0 (Outcome.success "h" 1 1))) 0
        none).submissions ≤ RETRY_ATTEMPTS + 1 ∧
    (processToken (List.replicate 6 (Step.attempt 0 (Outcome.success "h" 1 1))) 0
        none).resolved.isSome = true :=
  ⟨retry_bound_amended.1 (List.replicate 6 (Step.attempt 0 (Outcome.success "h" 1 1))) 0 none,
    retry_bound_amended.2 (List.replicate 6 (Step.attempt 0 (Outcome.success "h" 1 1))) none
      (by decide) (by decide)⟩

/-- A record whose status is `"completed"` does not satisfy the pending
filter. -/
theorem isPendingRec_completed (recs : Nat → Option TokenRec) (id : Nat) (t : TokenRec)
    (hrec : recs id = some t) (hst : t.status = "completed") :
    isPendingRec (recs id) = false := by
  rw [hrec]
  simp [isPendingRec, hst]

/-- A completed record is not in the pending list. -/
theorem completed_not_pending (start fin : Nat) (recs : Nat → Option TokenRec)
    (id : Nat) (t : TokenRec) (hrec : recs id = some t) (hst : t.status = "completed") :
    id ∉ pendingTokens start fin recs := by
  intro hmem
  unfold pendingTokens at hmem
  rw [List.mem_filter] at hmem
  rw [isPendingRec_completed recs id t hrec hst] at hmem
  exact absurd hmem.2 (by decide)

/-- C6: terminal monotonicity.  A record whose status is `completed` is
never touched again by the engine: the scheduler's pending filter excludes
it, so a whole run leaves it unchanged; and the retry script's guard
(`retry_failed_batch2_optimized.js` lines 117-120) returns `true`
immediately on a completed record, performing zero submissions and leaving
the record intact. -/
theorem terminal_monotonic :
    (∀ (start fin : Nat) (recs : Nat → Option TokenRec) (plans : Nat → List Step)
        (id : Nat) (t : TokenRec), recs id = some t → t.status = "completed" →
      runScheduler start fin recs plans id = recs id) ∧
    (∀ (outs : List Outcome) (r : Nat) (t : TokenRec), t.status = "completed" →
      processTokenRetry outs r (some t) = ⟨some true, some t, 0, 0, 0⟩) := by
  constructor
  · intro start fin recs plans id t hrec hst
    unfold runScheduler
    rw [if_neg (completed_not_pending start fin recs id t hrec hst)]
  · intro outs r t hst
    cases outs with
    | nil => simp [processTokenRetry, isCompletedRec, hst]
    | cons o rest => simp [processTokenRetry, isCompletedRec, hst]

/-- C6 witness: a run over an all-completed ledger leaves token 2's record
unchanged. -/
theorem terminal_monotonic_witness :
    runScheduler 1 3 allCompleted noPlans 2 = allCompleted 2 ∧
    processTokenRetry [Outcome.failure "x"] 0 (some compRec) =
      ⟨some true, some compRec, 0, 0, 0⟩ :=
  ⟨terminal_monotonic.1 1 3 allCompleted noPlans 2 compRec rfl rfl,
    terminal_monotonic.2 [Outcome.failure "x"] 0 compRec rfl⟩

/-- C2: resumption is idempotent.  The pending computation is a pure
function of the record map (computing it twice yields the same list), and a
run over a ledger whose every in-range record is `completed` has an empty
pending list, never reaches `initializeBlockchain()`, performs zero
submissions, and leaves every record unchanged. -/
theorem idempotent_resume :
    (∀ (start fin : Nat) (recs : Nat → Option TokenRec),
      pendingTokens start fin recs = pendingTokens start fin recs) ∧
    (∀ (start fin : Nat) (recs : Nat → Option TokenRec) (plans : Nat → List Step),
      (∀ id, start ≤ id → id ≤ fin → ∃ t, recs id = some t ∧ t.status = "completed") →
      pendingTokens start fin recs = [] ∧
      chainInitialized start fin recs = false ∧
      schedulerSubmissions start fin recs plans = 0 ∧
      ∀ id, runScheduler start fin recs plans id = recs id) := by
  constructor
  · intro start fin recs
    rfl
  · intro start fin recs plans hall
    have hpend : pendingTokens start fin recs = [] := by
      unfold pendingTokens
      rw [List.filter_eq_nil_iff]
      intro a ha
      rw [List.mem_range'_1] at ha
      obtain ⟨t, hrec, hst⟩ := hall a (by omega) (by omega)
      rw [isPendingRec_completed recs a t hrec hst]
      simp
    refine ⟨hpend, ?_, ?_, ?_⟩
    · unfold chainInitialized
      rw [hpend]
      rfl
    · unfold schedulerSubmissions
      rw [hpend]
      rfl
    · intro id
      unfold runScheduler
      rw [if_neg]
      rw [hpend]
      simp

/-- C2 witness: the all-completed ledger over range 1..3. -/
theorem idempotent_resume_witness :
    pendingTokens 1 3 allCompleted = [] ∧
    chainInitialized 1 3 allCompleted = false ∧
    schedulerSubmissions 1 3 allCompleted noPlans = 0 ∧
    runScheduler 1 3 allCompleted noPlans 2 = allCompleted 2 := by
  have h := idempotent_resume.2 1 3 allCompleted noPlans
    (fun id h1 h2 => ⟨compRec, rfl, rfl⟩)
  exact ⟨h.1, h.2.1, h.2.2.1, h.2.2.2 2⟩

/-- `List.range' s n` (step 1) is strictly increasing. -/
theorem range1_pairwise_lt : ∀ (n s : Nat), (List.range' s n).Pairwise (· < ·) := by
  intro n
  induction n with
  | zero => intro s; simp
  | succ m ih =>
    intro s
    rw [List.range'_succ]
    refine List.Pairwise.cons ?_ (ih (s + 1))
    intro b hb
    rw [List.mem_range'_1] at hb
    omega

/-- C3: the pending-ID computation returns exactly the in-range IDs whose
record is absent, `pending`, or `failed`, in strictly ascending order, and
never contains an ID whose record is `completed`. -/
theorem pendingTokens_spec :
    (∀ (start fin : Nat) (recs : Nat → Option TokenRec) (id : Nat),
      id ∈ pendingTokens start fin recs ↔
        start ≤ id ∧ id ≤ fin ∧
          (recs id = none ∨ ∃ t, recs id = some t ∧
            (t.status = "pending" ∨ t.status = "failed"))) ∧
    (∀ (start fin : Nat) (recs : Nat → Option TokenRec),
      (pendingTokens start fin recs).Pairwise (· < ·)) ∧
    (∀ (start fin : Nat) (recs : Nat → Option TokenRec) (id : Nat) (t : TokenRec),
      recs id = some t → t.status = "completed" →
      id ∉ pendingTokens start fin recs) := by
  refine ⟨?_, ?_, completed_not_pending⟩
  · intro start fin recs id
    unfold pendingTokens
    rw [List.mem_filter, List.mem_range'_1]
    constructor
    · rintro ⟨⟨hle, hlt⟩, hp⟩
      refine ⟨hle, by omega, ?_⟩
      cases hr : recs id with
      | none => exact Or.inl rfl
      | some t =>
        rw [hr] at hp
        simp only [isPendingRec, Bool.or_eq_true, beq_iff_eq] at hp
        exact Or.inr ⟨t, rfl, hp⟩
    · rintro ⟨hle, hfin, hp⟩
      refine ⟨⟨hle, by omega⟩, ?_⟩
      rcases hp with hnone | ⟨t, hrec, hs⟩
      · rw [hnone]; rfl
      · rw [hrec]
        simp only [isPendingRec]
        rcases hs with hs | hs <;> simp [hs]
  · intro start fin recs
    exact List.Pairwise.sublist (List.filter_sublist _) (range1_pairwise_lt _ start)

/-- C3 witness: over range 1..9 with a single completed record at 4, the
pending list is computed, is sorted, and excludes 4. -/
theorem pendingTokens_spec_witness :
    (pendingTokens 1 9 recsMix).Pairwise (· < ·) ∧
    decide (4 ∈ pendingTokens 1 9 recsMix) = false :=
  ⟨pendingTokens_spec.2.1 1 9 recsMix,
    decide_eq_false (pendingTokens_spec.2.2 1 9 recsMix 4 compRec rfl rfl)⟩

/-- C5 counterexample: at the boundary instant `now = backoffUntil`, a
backed-off signer is NOT selectable (the reactivation check is the strict
`now > backoffUntil`), so `acquire` returns nothing from a pool whose only
signer satisfies `now ≥ backoffUntil` — refuting "selectable iff
`now >= backoffUntil`". -/
theorem acquire_boundary_counterexample :
    getNextAvailableSigner 5 [⟨0, true, 5, 0⟩] = none ∧ 5 ≤ 5 := by
  decide

/-- `pickOldest` returns an element of its input list. -/
theorem pickOldest_mem :
    ∀ (l : List (Nat × SignerState)) (p : Nat × SignerState),
      pickOldest l = some p → p ∈ l := by
  intro l
  induction l with
  | nil => intro p h; simp [pickOldest] at h
  | cons q rest ih =>
    intro p h
    rw [pickOldest] at h
    cases hrec : pickOldest rest with
    | none =>
      simp only [hrec] at h
      obtain rfl := Option.some_inj.mp h
      exact List.mem_cons_self _ _
    | some q2 =>
      simp only [hrec] at h
      by_cases hcmp : q2.2.lastUsed < q.2.lastUsed
      · rw [if_pos hcmp] at h
        obtain rfl := Option.some_inj.mp h
        exact List.mem_cons_of_mem q (ih _ hrec)
      · rw [if_neg hcmp] at h
        obtain rfl := Option.some_inj.mp h
        exact List.mem_cons_self _ _

/-- Elements of `availAux i0 l` are the non-backed-off entries of `l`,
indexed from `i0`. -/
theorem availAux_mem :
    ∀ (l : List SignerState) (i0 : Nat) (p : Nat × SignerState),
      p ∈ availAux i0 l →
      ∃ j, p.1 = i0 + j ∧ l.get? j = some p.2 ∧ p.2.isBackedOff = false := by
  intro l
  induction l with
  | nil => intro i0 p h; simp [availAux] at h
  | cons s rest ih =>
    intro i0 p h
    unfold availAux at h
    rw [List.mem_append] at h
    rcases h with h | h
    · by_cases hb : s.isBackedOff
      · rw [if_pos hb] at h
        exact absurd h (by simp)
      · rw [if_neg hb] at h
        rcases List.mem_singleton.mp h with rfl
        exact ⟨0, by omega, rfl, by simpa using hb⟩
    · obtain ⟨j, hj, hget, hbo⟩ := ih (i0 + 1) p h
      exact ⟨j + 1, by omega, by simpa using hget, hbo⟩

/-- `reactivateAll` acts pointwise. -/
theorem reactivateAll_get (now : Nat) (states : List SignerState) (i : Nat) :
    (reactivateAll now states).get? i = (states.get? i).map (reactivateOne now) := by
  unfold reactivateAll
  exact List.get?_map (reactivateOne now) states i

/-- C5 corrected: the backoff state machine of `src/unnamed/part_006`.
A signer returned by `acquire` was, before the call, either not backed off
or strictly past its `backoffUntil` (so a backed-off signer is not returned
until `now > backoffUntil` — strict, not `now ≥ backoffUntil`); a pool
whose signer is not backed off or strictly past its backoff always yields a
signer; when `consecutiveFailures` reaches `SIGNER_BACKOFF_THRESHOLD` the
failure handler sets `backoffUntil = now + SIGNER_BACKOFF_DURATION` and the
backed-off flag (without clearing the counter); the counter is reset to 0
on reactivation (exit from backoff) and on any success. -/
theorem backoff_amended :
    (∀ (now : Nat) (states : List SignerState) (i : Nat) (st2 : List SignerState)
        (s : SignerState),
      getNextAvailableSigner now states = some (i, st2) → states.get? i = some s →
      s.isBackedOff = false ∨ s.backoffUntil < now) ∧
    (∀ (now : Nat) (s : SignerState), s.isBackedOff = false ∨ s.backoffUntil < now →
      (getNextAvailableSigner now [s]).isSome = true) ∧
    (∀ (now : Nat) (s : SignerState), SIGNER_BACKOFF_THRESHOLD ≤ s.consecutiveFailures + 1 →
      handleSignerFailure now s =
        { s with
          consecutiveFailures := s.consecutiveFailures + 1
          isBackedOff := true
          backoffUntil := now + SIGNER_BACKOFF_DURATION }) ∧
    (∀ (now : Nat) (s : SignerState), s.isBackedOff = true → s.backoffUntil < now →
      reactivateOne now s = { s with isBackedOff := false, consecutiveFailures := 0 }) ∧
    (∀ s : SignerState, (handleSignerSuccess s).consecutiveFailures = 0) := by
  refine ⟨?_, ?_, ?_, ?_, ?_⟩
  · intro now states i st2 s hacq hget
    simp only [getNextAvailableSigner] at hacq
    cases hpick : pickOldest (availableSigners (reactivateAll now states)) with
    | none => rw [hpick] at hacq; simp at hacq
    | some p =>
      obtain ⟨pi, ps⟩ := p
      rw [hpick] at hacq
      simp only [Option.some_inj, Prod.mk.injEq] at hacq
      have hmem := pickOldest_mem _ (pi, ps) hpick
      obtain ⟨j, hj, hgetj, hbo⟩ := availAux_mem _ 0 (pi, ps) hmem
      have hj0 : j = i := by
        have : pi = i := hacq.1
        simp at hj
        omega
      subst hj0
      rw [reactivateAll_get, hget] at hgetj
      simp only [Option.map_some'] at hgetj
      have hre : reactivateOne now s = ps := Option.some_inj.mp hgetj
      by_cases hb : s.isBackedOff
      · right
        unfold reactivateOne at hre
        by_cases hcond : (s.isBackedOff && decide (s.backoffUntil < now)) = true
        · simp only [hb, Bool.true_and, decide_eq_true_eq] at hcond
          exact hcond
        · rw [if_neg hcond] at hre
          rw [hre] at hb
          exact absurd hbo (by simp [hb])
      · exact Or.inl (by simpa using hb)
  · intro now s h
    have hclear : (reactivateOne now s).isBackedOff = false := by
      unfold reactivateOne
      rcases h with h | h
      · simp [h]
      · by_cases hb : s.isBackedOff
        · simp [hb, h]
        · simp [hb]
    simp only [getNextAvailableSigner, reactivateAll, availableSigners, availAux,
      List.map_cons, List.map_nil, hclear]
    simp [pickOldest]
  · intro now s h
    unfold handleSignerFailure
    rw [if_pos (by simpa using h)]
  · intro now s hb huntil
    unfold reactivateOne
    rw [if_pos (by simp [hb, huntil])]
  · intro s
    rfl

/-- C5 witness: the threshold-crossing failure, a reactivation, and a
success, on concrete signer states; plus a boundary-passing acquire. -/
theorem backoff_amended_witness :
    handleSignerFailure 100 ⟨2, false, 0, 0⟩ =
      ⟨3, true, 100 + SIGNER_BACKOFF_DURATION, 0⟩ ∧
    reactivateOne 50 ⟨2, true, 10, 0⟩ = ⟨0, false, 10, 0⟩ ∧
    (handleSignerSuccess ⟨4, false, 0, 0⟩).consecutiveFailures = 0 ∧
    (getNextAvailableSigner 50 [⟨2, true, 10, 7⟩]).isSome = true :=
  ⟨backoff_amended.2.2.1 100 ⟨2, false, 0, 0⟩ (by decide),
    backoff_amended.2.2.2.1 50 ⟨2, true, 10, 0⟩ rfl (by decide),
    backoff_amended.2.2.2.2 ⟨4, false, 0, 0⟩,
    backoff_amended.2.1 50 ⟨2, true, 10, 7⟩ (Or.inr (by decide))⟩

/-- C1 counterexample: two overlapping `getFreshNonce` calls against the
same signer — both reads of `getTransactionCount(addr, 'latest')` happening
before either transaction is mined — return the same value, so the
per-signer `nonceUsed` values recorded by the run contain duplicates and do
not form a strictly increasing run. -/
theorem getFreshNonce_overlap_counterexample :
    noncesFor [NEvent.fetch 1 0, NEvent.fetch 2 0] constChain7 0 = [7, 7] ∧
    decide (noncesFor [NEvent.fetch 1 0, NEvent.fetch 2 0] constChain7 0).Nodup = false := by
  decide

/-- Unfolding `noncesFor` over a fetch event. -/
theorem noncesFor_fetch (w s2 : Nat) (rest : List NEvent) (chain : Nat → Nat) (s : Nat) :
    noncesFor (NEvent.fetch w s2 :: rest) chain s =
      (if s2 = s then [chain s2] else []) ++ noncesFor rest chain s := by
  by_cases h : s2 = s <;> simp [noncesFor, runNonceSched, h]

/-- Unfolding `noncesFor` over a mine event. -/
theorem noncesFor_mine (s2 : Nat) (rest : List NEvent) (chain : Nat → Nat) (s : Nat) :
    noncesFor (NEvent.mine s2 :: rest) chain s =
      noncesFor rest (fun x => if x = s2 then chain x + 1 else chain x) s := rfl

/-- Every nonce fetched for signer `s` during a schedule is at least the
signer's confirmed count at the start of the schedule. -/
theorem noncesFor_lb (sched : List NEvent) :
    ∀ (chain : Nat → Nat) (s v : Nat), v ∈ noncesFor sched chain s → chain s ≤ v := by
  induction sched with
  | nil => intro chain s v hv; simp [noncesFor, runNonceSched] at hv
  | cons e rest ih =>
    intro chain s v hv
    cases e with
    | fetch w s2 =>
      rw [noncesFor_fetch] at hv
      rw [List.mem_append] at hv
      rcases hv with hv | hv
      · by_cases h : s2 = s
        · rw [if_pos h] at hv
          rw [List.mem_singleton.mp hv, h]
        · rw [if_neg h] at hv
          simp at hv
      · exact ih chain s v hv
    | mine s2 =>
      rw [noncesFor_mine] at hv
      have := ih _ s v hv
      by_cases h : s = s2
      · simp only [if_pos h] at this
        omega
      · simpa [if_neg h] using this

/-- The nonces fetched for one signer never decrease along a schedule. -/
theorem noncesFor_chain (sched : List NEvent) :
    ∀ (chain : Nat → Nat) (s : Nat), (noncesFor sched chain s).Chain' (· ≤ ·) := by
  induction sched with
  | nil => intro chain s; simp [noncesFor, runNonceSched]
  | cons e rest ih =>
    intro chain s
    cases e with
    | fetch w s2 =>
      rw [noncesFor_fetch]
      by_cases h : s2 = s
      · rw [if_pos h]
        rw [List.singleton_append, List.chain'_cons']
        refine ⟨?_, ih chain s⟩
        intro b hb
        have hbm : b ∈ noncesFor rest chain s := by
          cases hh : (noncesFor rest chain s) with
          | nil => rw [hh] at hb; simp at hb
          | cons x xs =>
            rw [hh] at hb
            simp at hb
            subst hb
            exact List.mem_cons_self _ _
        have hle := noncesFor_lb rest chain s b hbm
        rw [h]
        exact hle
      · rw [if_neg h, List.nil_append]
        exact ih chain s
    | mine s2 =>
      rw [noncesFor_mine]
      exact ih _ s

/-- Between resets, the local cursor emits the contiguous block starting at
`baseNonce + nonceOffset`. -/
theorem runNextNonces_eq :
    ∀ (k base off : Nat), runNextNonces k base off = List.range' (base + off) k := by
  intro k
  induction k with
  | zero => intro base off; rfl
  | succ m ih =>
    intro base off
    rw [List.range'_succ]
    show (base + off) :: runNextNonces m base (off + 1) = _
    rw [ih base (off + 1)]
    have : base + (off + 1) = base + off + 1 := by omega
    rw [this]

/-- C1 corrected: nonce allocation as implemented.  Two overlapping
`getFreshNonce` calls against the same signer (no transaction mined between
the two reads) return the SAME value — the code offers no exclusivity — and
the per-signer fetched-nonce sequence is merely non-decreasing.  The local
cursor `getNextNonce` of `mint_batch_200k_300k.js` does return distinct
contiguous strictly increasing nonces between `resetNonceSequence` calls. -/
theorem nonce_allocation_amended :
    (∀ (a b s : Nat) (rest : List NEvent) (chain : Nat → Nat),
      runNonceSched (NEvent.fetch a s :: NEvent.fetch b s :: rest) chain =
        (s, chain s) :: (s, chain s) :: runNonceSched rest chain) ∧
    (∀ (sched : List NEvent) (chain : Nat → Nat) (s : Nat),
      (noncesFor sched chain s).Chain' (· ≤ ·)) ∧
    (∀ (k base off : Nat), runNextNonces k base off = List.range' (base + off) k) ∧
    (∀ (k base off : Nat), (runNextNonces k base off).Pairwise (· < ·) ∧
      (runNextNonces k base off).Nodup) := by
  refine ⟨?_, ?_, runNextNonces_eq, ?_⟩
  · intro a b s rest chain
    rfl
  · intro sched chain s
    exact noncesFor_chain sched chain s
  · intro k base off
    rw [runNextNonces_eq]
    have hpw := range1_pairwise_lt k (base + off)
    exact ⟨hpw, hpw.imp Nat.ne_of_lt⟩

/-- C4 counterexample: the snapshot call writes the serialized log directly
to the final path (no temporary file, no rename), so a crash one character
into the write leaves the durable store holding just `\x7b` — neither the
complete old snapshot nor the complete new one, and not parseable. -/
theorem snapshot_crash_counterexample :
    decide (writeJsonCrash ⟨[], 2, 0, 0⟩ (some 1) = serializeLog ⟨[], 1, 0, 0⟩) = false ∧
    decide (writeJsonCrash ⟨[], 2, 0, 0⟩ (some 1) = serializeLog ⟨[], 2, 0, 0⟩) = false ∧
    wellFormedJson (writeJsonCrash ⟨[], 2, 0, 0⟩ (some 1)) = false := by
  decide

/-- The serialized log always starts with `\x7b` and ends with `\x7d`. -/
theorem serializeLog_wellFormed (log : MintLogM) :
    wellFormedJson (serializeLog log) = true := by
  have hlast : (serializeBody log ++ ['\x7d']).getLast? = some '\x7d' :=
    List.getLast?_concat _
  simp [serializeLog, wellFormedJson, hlast]

/-- C4 corrected: `snapshot` is a direct in-place overwrite.  An
uninterrupted `fs.writeJson` call replaces the store with the complete new
serialization (which parses, and which is independent of what was stored
before — repeated snapshots are idempotent), but an interruption at any
point leaves an arbitrary prefix of the new content, not "old or new". -/
theorem snapshot_amended :
    (∀ log : MintLogM, writeJsonCrash log none = serializeLog log) ∧
    (∀ log : MintLogM, wellFormedJson (serializeLog log) = true) ∧
    (∀ (log : MintLogM) (k : Nat), writeJsonCrash log (some k) <+: serializeLog log) ∧
    (∀ (log : MintLogM) (k : Nat), (serializeLog log).length ≤ k →
      writeJsonCrash log (some k) = serializeLog log) := by
  refine ⟨fun log => rfl, serializeLog_wellFormed, ?_, ?_⟩
  · intro log k
    exact List.take_prefix k (serializeLog log)
  · intro log k hk
    unfold writeJsonCrash
    exact List.take_of_length_le hk

/-- C4 witness: an over-long crash point behaves as a completed write. -/
theorem snapshot_amended_witness :
    writeJsonCrash ⟨[], 1, 0, 0⟩ (some 200) = serializeLog ⟨[], 1, 0, 0⟩ :=
  snapshot_amended.2.2.2 ⟨[], 1, 0, 0⟩ 200 (by decide)

end PunksData
